import Mathlib

/-!
Verification development for the TimeDiff library: a duration value type
holding a millisecond magnitude, with construction from two instants, a raw
millisecond count, or an ISO-8601 duration string, a days/hours/minutes/seconds
breakdown, ISO-8601 formatting, arithmetic, and localized human-readable
formatting (English and Russian pluralization).

The definitions below are a shallow embedding of the TypeScript source.
JavaScript numbers are modelled as `Int` (every value the library produces is
integral); `Math.floor(x / c)` for a positive constant `c` is `Int.fdiv`, and
the JavaScript `%` operator (truncated remainder, sign of the dividend) is
`Int.tmod`.  Thrown errors are modelled with `Except`.
-/

/-- The character class `\d` of the ISO-8601 duration regex. -/
def isDigitChar (c : Char) : Bool := 48 ≤ c.toNat && c.toNat ≤ 57

/-- Fuel-driven decimal rendering helper: emits the decimal digits of `n`
(most significant first).  The fuel is only there to make the recursion
structural; `natToDigits` supplies enough of it. -/
def natToDigitsAux : Nat → Nat → List Char
  | 0, _ => []
  | fuel + 1, n =>
    if n < 10 then [Nat.digitChar n]
    else natToDigitsAux fuel (n / 10) ++ [Nat.digitChar (n % 10)]

/-- Decimal digit list of a natural number (`n + 1` is always enough fuel,
because `n / 10 < n` whenever `10 ≤ n`). -/
def natToDigits (n : Nat) : List Char := natToDigitsAux (n + 1) n

/-- Decimal string of a natural number, as JavaScript renders a non-negative
integral number into a template literal. -/
def natToString (n : Nat) : String := ⟨natToDigits n⟩

/-- JavaScript rendering of an integral number into a string. -/
def jsIntToString (n : Int) : String :=
  if n < 0 then "-" ++ natToString n.natAbs else natToString n.toNat

/-- Numeric value of a digit string, as `parseInt(·, 10)` computes it on a
string of decimal digits. -/
def digitsToNat (ds : List Char) : Nat :=
  ds.foldl (fun a c => a * 10 + (c.toNat - 48)) 0

/-- Splits a character list into its maximal leading run of decimal digits
and the remainder (the greedy behaviour of `\d+` in the regex engine). -/
def takeDigits : List Char → List Char × List Char
  | [] => ([], [])
  | c :: cs =>
    if isDigitChar c then
      let p := takeDigits cs
      (c :: p.1, p.2)
    else ([], c :: cs)

/-- Consumes one expected literal character, as the regex consumes `P`, `D`,
`T`, `H`, `M` or `S`. -/
def expectChar (c : Char) : List Char → Option (List Char)
  | x :: xs => if x = c then some xs else none
  | [] => none

/-- Time-component half of the regex match: `(?:(\d+)H)?(?:(\d+)M)?(?:(\d+)S)?`
applied after the mandatory `T`.  Each optional group matches exactly when the
maximal digit run at the current position is non-empty and is followed by the
group's letter (a shorter split of `\d+` would leave a digit where the letter
must be, so greedy matching with this all-or-nothing rule is exact).
`parseS` extracts the seconds group. -/
def parseS (cs : List Char) : Nat :=
  let p := takeDigits cs
  if p.1 = [] then 0
  else
    match expectChar 'S' p.2 with
    | some _ => digitsToNat p.1
    | none => 0

/-- Minutes-then-seconds groups of the regex (see `parseS`). -/
def parseMS (cs : List Char) : Nat × Nat :=
  let p := takeDigits cs
  if p.1 = [] then (0, 0)
  else
    match expectChar 'M' p.2 with
    | some r2 => (digitsToNat p.1, parseS r2)
    | none =>
      match expectChar 'S' p.2 with
      | some _ => (0, digitsToNat p.1)
      | none => (0, 0)

/-- Hours, minutes and seconds groups of the regex (see `parseS`). -/
def parseHMS (cs : List Char) : Nat × Nat × Nat :=
  let p := takeDigits cs
  if p.1 = [] then (0, 0, 0)
  else
    match expectChar 'H' p.2 with
    | some r2 =>
      let ms := parseMS r2
      (digitsToNat p.1, ms.1, ms.2)
    | none =>
      match expectChar 'M' p.2 with
      | some r2 => (0, digitsToNat p.1, parseS r2)
      | none =>
        match expectChar 'S' p.2 with
        | some _ => (0, 0, digitsToNat p.1)
        | none => (0, 0, 0)

/-- One attempt of the regex `P(?:(\d+)D)?T(?:(\d+)H)?(?:(\d+)M)?(?:(\d+)S)?`
at the head of `l`, returning the captured `(days, hours, minutes, seconds)`
(absent groups as 0).  After `P`, the optional `(\d+)D` group matches exactly
when the maximal digit run is non-empty and followed by `D`; otherwise the
group is skipped and `T` must appear immediately. -/
def matchFrom (l : List Char) : Option (Nat × Nat × Nat × Nat) :=
  match expectChar 'P' l with
  | none => none
  | some rest =>
    let p := takeDigits rest
    if p.1 = [] then
      match expectChar 'T' rest with
      | some r2 =>
        let hms := parseHMS r2
        some (0, hms.1, hms.2.1, hms.2.2)
      | none => none
    else
      match expectChar 'D' p.2 with
      | some r1 =>
        match expectChar 'T' r1 with
        | some r2 =>
          let hms := parseHMS r2
          some (digitsToNat p.1, hms.1, hms.2.1, hms.2.2)
        | none => none
      | none => none

/-- Unanchored search of `String.prototype.match`: the regex is tried at each
position from the left and the leftmost successful match wins. -/
def searchMatch : List Char → Option (Nat × Nat × Nat × Nat)
  | [] => none
  | c :: cs =>
    match matchFrom (c :: cs) with
    | some r => some r
    | none => searchMatch cs

/-- A duration value: the single millisecond magnitude stored by the class. -/
structure TimeDiff where
  milliseconds : Int
  deriving DecidableEq

/-- The two error kinds the class throws. -/
inductive TDError where
  | invalidConstructorArguments
  | invalidDurationFormat
  deriving DecidableEq

/-- `TimeDiff.fromISO`: matches the ISO-8601 duration regex against the
string (unanchored, as `isoString.match(isoRegex)` is), throws
`Invalid ISO 8601 duration format` when there is no match, and otherwise
combines the captured components into milliseconds. -/
def fromISO (s : String) : Except TDError TimeDiff :=
  match searchMatch s.data with
  | some x =>
    .ok ⟨((x.1 * 86400000 + x.2.1 * 3600000 + x.2.2.1 * 60000 + x.2.2.2 * 1000 : Nat) : Int)⟩
  | none => .error .invalidDurationFormat

/-- A JavaScript value passed to the overloaded constructor: a `Date` (its
epoch-millisecond time), a number, a string, or anything else. -/
inductive JSVal where
  | date (t : Int)
  | num (n : Int)
  | str (s : String)
  | other
  deriving DecidableEq

/-- The runtime dispatch of `constructor(arg1, arg2?)`: a string delegates to
`fromISO` (any second argument is ignored on this path); a number stores the
value verbatim but throws if a second argument is present; two `Date`s store
the absolute difference of their times; everything else throws. `none` for
`arg2` models an absent / `undefined` second argument. -/
def construct : JSVal → Option JSVal → Except TDError TimeDiff
  | .str s, _ => fromISO s
  | .num n, arg2 =>
    match arg2 with
    | none => .ok ⟨n⟩
    | some _ => .error .invalidConstructorArguments
  | .date t1, some (.date t2) => .ok ⟨|t2 - t1|⟩
  | _, _ => .error .invalidConstructorArguments

/-- The derived breakdown `{days, hours, minutes, seconds}`. -/
structure TimeDiffResult where
  days : Int
  hours : Int
  minutes : Int
  seconds : Int
  deriving DecidableEq

/-- `calculateDiff`: successive floor division and truncated remainder of the
magnitude, exactly as the source computes each component from
`this.milliseconds`. -/
def calculateDiff (a : TimeDiff) : TimeDiffResult :=
  { days := a.milliseconds.fdiv 86400000
    hours := (a.milliseconds.tmod 86400000).fdiv 3600000
    minutes := (a.milliseconds.tmod 3600000).fdiv 60000
    seconds := (a.milliseconds.tmod 60000).fdiv 1000 }

/-- `valueOf`: the stored millisecond magnitude. -/
def valueOf (a : TimeDiff) : Int := a.milliseconds

/-- `toISO`: the template literal `P${days}DT${hours}H${minutes}M${seconds}S`
over the breakdown. -/
def toISO (a : TimeDiff) : String :=
  let r := calculateDiff a
  "P" ++ jsIntToString r.days ++ "DT" ++ jsIntToString r.hours ++ "H" ++
    jsIntToString r.minutes ++ "M" ++ jsIntToString r.seconds ++ "S"

/-- `TimeDiff.add`: a new instance with the sum of the magnitudes. -/
def add (a b : TimeDiff) : TimeDiff := ⟨a.milliseconds + b.milliseconds⟩

/-- `TimeDiff.subtract`: a new instance with `Math.abs` of the difference. -/
def subtract (a b : TimeDiff) : TimeDiff := ⟨|a.milliseconds - b.milliseconds|⟩

/-- Instance method `plus`: delegates to the static `add` with `this` first. -/
def plus (a other : TimeDiff) : TimeDiff := add a other

/-- Instance method `minus`: delegates to the static `subtract` with `this`
first. -/
def minus (a other : TimeDiff) : TimeDiff := subtract a other

/-- A resolved i18next language: the library registers resources for exactly
`en` and `ru`. -/
inductive Lang where
  | en
  | ru
  deriving DecidableEq

/-- The built-in English resource table registered with i18next
(`\x7b\x7bcount\x7d\x7d` is the count placeholder of the templates). -/
def enTranslation : List (String × String) :=
  [("days", "\x7b\x7bcount\x7d\x7d day"),
   ("days_plural", "\x7b\x7bcount\x7d\x7d days"),
   ("hours", "\x7b\x7bcount\x7d\x7d hour"),
   ("hours_plural", "\x7b\x7bcount\x7d\x7d hours"),
   ("minutes", "\x7b\x7bcount\x7d\x7d minute"),
   ("minutes_plural", "\x7b\x7bcount\x7d\x7d minutes"),
   ("seconds", "\x7b\x7bcount\x7d\x7d second"),
   ("seconds_plural", "\x7b\x7bcount\x7d\x7d seconds")]

/-- The built-in Russian resource table registered with i18next. -/
def ruTranslation : List (String × String) :=
  [("days", "\x7b\x7bcount\x7d\x7d день"),
   ("days_plural", "\x7b\x7bcount\x7d\x7d дня"),
   ("days_plural_2", "\x7b\x7bcount\x7d\x7d дней"),
   ("hours", "\x7b\x7bcount\x7d\x7d час"),
   ("hours_plural", "\x7b\x7bcount\x7d\x7d часа"),
   ("hours_plural_2", "\x7b\x7bcount\x7d\x7d часов"),
   ("minutes", "\x7b\x7bcount\x7d\x7d минута"),
   ("minutes_plural", "\x7b\x7bcount\x7d\x7d минуты"),
   ("minutes_plural_2", "\x7b\x7bcount\x7d\x7d минут"),
   ("seconds", "\x7b\x7bcount\x7d\x7d секунда"),
   ("seconds_plural", "\x7b\x7bcount\x7d\x7d секунды"),
   ("seconds_plural_2", "\x7b\x7bcount\x7d\x7d секунд")]

/-- The resource table of a resolved language. -/
def resourceTable : Lang → List (String × String)
  | .en => enTranslation
  | .ru => ruTranslation

/-- The placeholder `\x7b\x7bcount\x7d\x7d` interpolated by i18next. -/
def countPlaceholder : List Char := "\x7b\x7bcount\x7d\x7d".data

/-- Substitutes the interpolation value for the first occurrence of the count
placeholder (every template above contains exactly one occurrence, so this is
i18next's interpolation on these tables). -/
def substCountAux (v : List Char) : List Char → List Char
  | [] => []
  | c :: cs =>
    if (c :: cs).take 9 = countPlaceholder then v ++ cs.drop 8
    else c :: substCountAux v cs

/-- Interpolation of `count` into a template string. -/
def substCount (tpl : String) (v : String) : String := ⟨substCountAux v.data tpl.data⟩

/-- Modelled from the spec: `i18next.t(key, \x7bcount\x7d)` of the external
localization collaborator — looks the key up in the active language's table
and substitutes the numeric value for the count placeholder (a missing key is
returned verbatim, which no reachable call does on these tables). -/
def i18nTranslate (lang : Lang) (key : String) (count : Int) : String :=
  match (resourceTable lang).lookup key with
  | some tpl => substCount tpl (jsIntToString count)
  | none => key

/-- The JavaScript test `s.startsWith("ru")`. -/
def startsWithRu (s : String) : Bool := s.data.take 2 = ['r', 'u']

/-- `detectLanguage`: `'ru'` when the runtime-provided language tag
(`navigator?.language || ''`, here the parameter `navLang`) starts with
`"ru"`, otherwise `'en'`. -/
def detectLanguage (navLang : String) : String :=
  if startsWithRu navLang then "ru" else "en"

/-- Modelled from the spec: the external localization collaborator resolves a
requested language tag to the Russian resource table when the tag starts with
the two-letter Russian tag, otherwise to the English one (i18next's fallback
from a regional tag such as `ru-RU` to its registered base language `ru`;
anything without registered resources falls back to English here, which is the
only behaviour the library's claims exercise). -/
def resolveLang (lng : String) : Lang :=
  if startsWithRu lng then .ru else .en

/-- The language made active by `i18next.changeLanguage(locale ||
this.detectLanguage())` before rendering. -/
def effectiveLang (navLang locale : String) : Lang :=
  resolveLang (if locale = "" then detectLanguage navLang else locale)

/-- `getPluralKeyForRu`: three-way Russian pluralization key choice from the
last digit and last two digits of the unit value (JavaScript `%` is `tmod`). -/
def getPluralKeyForRu (unit : Int) (singularKey pluralKey1 pluralKey2 : String) : String :=
  let lastDigit := unit.tmod 10
  let lastTwoDigits := unit.tmod 100
  if lastDigit = 1 ∧ lastTwoDigits ≠ 11 then singularKey
  else if 2 ≤ lastDigit ∧ lastDigit ≤ 4 ∧ (lastTwoDigits < 10 ∨ 20 ≤ lastTwoDigits) then pluralKey1
  else pluralKey2

/-- The `format` argument of `humanize`. -/
inductive HFormat where
  | short
  | long
  | iso
  deriving DecidableEq

/-- The `baseUnit` argument of `humanize`. -/
inductive BaseUnit where
  | days
  | hours
  | minutes
  | seconds
  deriving DecidableEq

/-- The local `formatUnit` closure of `humanize`: the Russian three-way rule
is used exactly when the `locale` argument is the literal string `"ru"`;
otherwise the English two-way rule picks the singular key exactly for the
value 1.  The active language `lang` supplies the templates either way. -/
def formatUnit (locale : String) (lang : Lang) (unit : Int)
    (singularKey pluralKey : String) (pluralKey2 : Option String) : String :=
  if locale = "ru" then
    i18nTranslate lang (getPluralKeyForRu unit singularKey pluralKey (pluralKey2.getD pluralKey)) unit
  else
    i18nTranslate lang (if unit = 1 then singularKey else pluralKey) unit

/-- `Array.prototype.join(sep)` over the non-empty rendered pieces. -/
def joinWith (sep : String) : List String → String
  | [] => ""
  | [x] => x
  | x :: xs => x ++ sep ++ joinWith sep xs

/-- `humanize(locale = '', format = 'long', baseUnit = 'seconds')`:
`'iso'` short-circuits to `toISO`; otherwise the breakdown is rendered — the
all-zero breakdown as a single `baseUnit` string, and each positive component
via `formatUnit`, joined with `', '` (long) or as `value + unit letter` pieces
joined with `' '` (short).  `navLang` models `navigator?.language || ''`. -/
def humanize (navLang : String) (a : TimeDiff) (locale : String)
    (format : HFormat) (baseUnit : BaseUnit) : String :=
  if format = HFormat.iso then toISO a
  else
    let r := calculateDiff a
    let lang := effectiveLang navLang locale
    if r.days = 0 ∧ r.hours = 0 ∧ r.minutes = 0 ∧ r.seconds = 0 then
      match baseUnit with
      | .days => formatUnit locale lang 0 "days" "days_plural" (some "days_plural_2")
      | .hours => formatUnit locale lang 0 "hours" "hours_plural" (some "hours_plural_2")
      | .minutes => formatUnit locale lang 0 "minutes" "minutes_plural" (some "minutes_plural_2")
      | .seconds => formatUnit locale lang 0 "seconds" "seconds_plural" (some "seconds_plural_2")
    else
      let daysStr := if 0 < r.days then formatUnit locale lang r.days "days" "days_plural" (some "days_plural_2") else ""
      let hoursStr := if 0 < r.hours then formatUnit locale lang r.hours "hours" "hours_plural" (some "hours_plural_2") else ""
      let minutesStr := if 0 < r.minutes then formatUnit locale lang r.minutes "minutes" "minutes_plural" (some "minutes_plural_2") else ""
      let secondsStr := if 0 < r.seconds then formatUnit locale lang r.seconds "seconds" "seconds_plural" (some "seconds_plural_2") else ""
      if format = HFormat.short then
        joinWith " " (List.filter (fun s => s ≠ "")
          [if r.days ≠ 0 then jsIntToString r.days ++ (if locale = "ru" then "д" else "d") else "",
           if r.hours ≠ 0 then jsIntToString r.hours ++ (if locale = "ru" then "ч" else "h") else "",
           if r.minutes ≠ 0 then jsIntToString r.minutes ++ (if locale = "ru" then "м" else "m") else "",
           if r.seconds ≠ 0 then jsIntToString r.seconds ++ (if locale = "ru" then "с" else "s") else ""])
      else
        joinWith ", " (List.filter (fun s => s ≠ "") [daysStr, hoursStr, minutesStr, secondsStr])

/-- Modelled from the claim being checked against the code: a renderer that is
`humanize` except that unit formatting always applies the English two-way rule
(singular exactly for the value 1) and the English single-letter suffixes
`d`/`h`/`m`/`s`, while templates are still resolved from the effective
language's resource table. -/
def humanizeEnglishRule (navLang : String) (a : TimeDiff) (locale : String)
    (format : HFormat) (baseUnit : BaseUnit) : String :=
  if format = HFormat.iso then toISO a
  else
    let r := calculateDiff a
    let lang := effectiveLang navLang locale
    if r.days = 0 ∧ r.hours = 0 ∧ r.minutes = 0 ∧ r.seconds = 0 then
      match baseUnit with
      | .days => i18nTranslate lang (if (0 : Int) = 1 then "days" else "days_plural") 0
      | .hours => i18nTranslate lang (if (0 : Int) = 1 then "hours" else "hours_plural") 0
      | .minutes => i18nTranslate lang (if (0 : Int) = 1 then "minutes" else "minutes_plural") 0
      | .seconds => i18nTranslate lang (if (0 : Int) = 1 then "seconds" else "seconds_plural") 0
    else
      let daysStr := if 0 < r.days then i18nTranslate lang (if r.days = 1 then "days" else "days_plural") r.days else ""
      let hoursStr := if 0 < r.hours then i18nTranslate lang (if r.hours = 1 then "hours" else "hours_plural") r.hours else ""
      let minutesStr := if 0 < r.minutes then i18nTranslate lang (if r.minutes = 1 then "minutes" else "minutes_plural") r.minutes else ""
      let secondsStr := if 0 < r.seconds then i18nTranslate lang (if r.seconds = 1 then "seconds" else "seconds_plural") r.seconds else ""
      if format = HFormat.short then
        joinWith " " (List.filter (fun s => s ≠ "")
          [if r.days ≠ 0 then jsIntToString r.days ++ "d" else "",
           if r.hours ≠ 0 then jsIntToString r.hours ++ "h" else "",
           if r.minutes ≠ 0 then jsIntToString r.minutes ++ "m" else "",
           if r.seconds ≠ 0 then jsIntToString r.seconds ++ "s" else ""])
      else
        joinWith ", " (List.filter (fun s => s ≠ "") [daysStr, hoursStr, minutesStr, secondsStr])

/-- Optionally consumes one `(\d+)X` group during an anchored match: the group
is taken exactly when a non-empty maximal digit run is followed by the letter
(otherwise backtracking cannot make it match and the group is skipped in
place). -/
def consumeGroup (letter : Char) (cs : List Char) : List Char :=
  let p := takeDigits cs
  if p.1 = [] then cs
  else
    match expectChar letter p.2 with
    | some r => r
    | none => cs

/-- Modelled from the claim's words: whether the WHOLE string matches the
pattern `P(\d+D)?T(\d+H)?(\d+M)?(\d+S)?` — i.e. the anchored reading of
"`s` matches the pattern", with no characters left over. -/
def isoFullMatch (s : String) : Bool :=
  match expectChar 'P' s.data with
  | none => false
  | some r0 =>
    match expectChar 'T' (consumeGroup 'D' r0) with
    | none => false
    | some r2 => consumeGroup 'S' (consumeGroup 'M' (consumeGroup 'H' r2)) = []

/-- Declarative statement that the regex `P(?:(\d+)D)?T…` matches somewhere in
the character list: some position carries a literal `P`, followed either
immediately by the literal `T`, or by a non-empty digit run, `D`, then `T`
(the optional time groups after `T` can never make a match fail). -/
def ContainsISOMatch (cs : List Char) : Prop :=
  ∃ pre ds suf, cs = pre ++ 'P' :: (ds ++ 'T' :: suf) ∧
    (ds = [] ∨ ∃ ds1, ds = ds1 ++ ['D'] ∧ ds1 ≠ [] ∧ ∀ c ∈ ds1, isDigitChar c = true)

/-- Modelled from the claim's words: the three recognized constructor shapes —
two instants, a single integer, a single string. -/
def MatchesRecognizedShape (arg1 : JSVal) (arg2 : Option JSVal) : Prop :=
  (∃ t1 t2, arg1 = JSVal.date t1 ∧ arg2 = some (JSVal.date t2)) ∨
    (∃ n, arg1 = JSVal.num n ∧ arg2 = none) ∨
    (∃ s, arg1 = JSVal.str s ∧ arg2 = none)

/-! ### Theorems -/

/-- C4: `add` sums magnitudes, `subtract` is the absolute difference and is
commutative in result magnitude, and the instance methods `plus`/`minus`
delegate to the static forms with the receiver first. -/
theorem c4_arithmetic (a b : TimeDiff) :
    valueOf (add a b) = valueOf a + valueOf b
    ∧ valueOf (subtract a b) = |valueOf a - valueOf b|
    ∧ valueOf (subtract a b) = valueOf (subtract b a)
    ∧ plus a b = add a b
    ∧ minus a b = subtract a b :=
  ⟨rfl, rfl, by simp only [subtract, valueOf, abs_sub_comm], rfl, rfl⟩

/-- C6: a zero-magnitude value humanizes (long format, default base unit
`seconds`) to the localized single zero string, not to an empty string. -/
theorem c6_zero_duration (navLang : String) :
    humanize navLang ⟨0⟩ "en" HFormat.long BaseUnit.seconds = "0 seconds"
    ∧ humanize navLang ⟨0⟩ "ru" HFormat.long BaseUnit.seconds = "0 секунд" :=
  ⟨rfl, rfl⟩

/-- C7: `toISO` renders `P{days}DT{hours}H{minutes}M{seconds}S` from the
breakdown with all four components present even when zero, and
`humanize` with format `iso` returns exactly the `toISO` string regardless of
locale, base unit, or detected language. -/
theorem c7_toISO_shape :
    (∀ a : TimeDiff,
      toISO a = "P" ++ jsIntToString (calculateDiff a).days ++ "DT" ++
        jsIntToString (calculateDiff a).hours ++ "H" ++
        jsIntToString (calculateDiff a).minutes ++ "M" ++
        jsIntToString (calculateDiff a).seconds ++ "S")
    ∧ toISO ⟨0⟩ = "P0DT0H0M0S"
    ∧ toISO ⟨90123000⟩ = "P1DT1H2M3S"
    ∧ ∀ (navLang : String) (a : TimeDiff) (locale : String) (baseUnit : BaseUnit),
        humanize navLang a locale HFormat.iso baseUnit = toISO a :=
  ⟨fun _ => rfl, rfl, rfl, fun _ _ _ _ => rfl⟩

/-- C5: the Russian pluralization key is chosen three-ways from `n % 10` and
`n % 100` exactly as the claim states, and the day strings rendered through
the full pipeline at 0, 1, 2, 5, 11, 21 and 23 days are the claimed forms. -/
theorem c5_ru_pluralization :
    (∀ n : Nat,
      getPluralKeyForRu (n : Int) "days" "days_plural" "days_plural_2" =
        (if n % 10 = 1 ∧ n % 100 ≠ 11 then "days"
         else if 2 ≤ n % 10 ∧ n % 10 ≤ 4 ∧ ¬(10 ≤ n % 100 ∧ n % 100 ≤ 19) then "days_plural"
         else "days_plural_2"))
    ∧ humanize "en" ⟨0⟩ "ru" HFormat.long BaseUnit.days = "0 дней"
    ∧ humanize "en" ⟨86400000⟩ "ru" HFormat.long BaseUnit.days = "1 день"
    ∧ humanize "en" ⟨172800000⟩ "ru" HFormat.long BaseUnit.days = "2 дня"
    ∧ humanize "en" ⟨432000000⟩ "ru" HFormat.long BaseUnit.days = "5 дней"
    ∧ humanize "en" ⟨950400000⟩ "ru" HFormat.long BaseUnit.days = "11 дней"
    ∧ humanize "en" ⟨1814400000⟩ "ru" HFormat.long BaseUnit.days = "21 день"
    ∧ humanize "en" ⟨1987200000⟩ "ru" HFormat.long BaseUnit.days = "23 дня" := by
  refine ⟨?_, rfl, rfl, rfl, rfl, rfl, rfl, rfl⟩
  intro n
  unfold getPluralKeyForRu
  rw [Int.tmod_eq_emod (Int.natCast_nonneg n) (by norm_num),
      Int.tmod_eq_emod (Int.natCast_nonneg n) (by norm_num)]
  have h1 : ((n : Int) % 10 = 1 ∧ (n : Int) % 100 ≠ 11) ↔ (n % 10 = 1 ∧ n % 100 ≠ 11) := by
    omega
  have h2 : (2 ≤ (n : Int) % 10 ∧ (n : Int) % 10 ≤ 4 ∧ ((n : Int) % 100 < 10 ∨ 20 ≤ (n : Int) % 100)) ↔
      (2 ≤ n % 10 ∧ n % 10 ≤ 4 ∧ ¬(10 ≤ n % 100 ∧ n % 100 ≤ 19)) := by
    omega
  simp only [h1, h2]

/-- C3: constructing from `d*86400000 + h*3600000 + m*60000 + s*1000` plus any
sub-second remainder `r < 1000` succeeds, and the breakdown is exactly
`{days := d, hours := h, minutes := m, seconds := s}` — floor division and
modulo discard the sub-second remainder. -/
theorem c3_breakdown (d h m s r : Nat) (hh : h < 24) (hm : m < 60) (hs : s < 60)
    (hr : r < 1000) :
    construct (JSVal.num ((d * 86400000 + h * 3600000 + m * 60000 + s * 1000 + r : Nat) : Int)) none
      = Except.ok ⟨((d * 86400000 + h * 3600000 + m * 60000 + s * 1000 + r : Nat) : Int)⟩
    ∧ calculateDiff ⟨((d * 86400000 + h * 3600000 + m * 60000 + s * 1000 + r : Nat) : Int)⟩
      = ⟨(d : Int), (h : Int), (m : Int), (s : Int)⟩ := by
  refine ⟨rfl, ?_⟩
  simp only [calculateDiff, TimeDiffResult.mk.injEq]
  refine ⟨?_, ?_, ?_, ?_⟩
  · rw [Int.fdiv_eq_ediv _ (by norm_num)]
    omega
  · rw [Int.tmod_eq_emod (by positivity) (by norm_num), Int.fdiv_eq_ediv _ (by norm_num)]
    omega
  · rw [Int.tmod_eq_emod (by positivity) (by norm_num), Int.fdiv_eq_ediv _ (by norm_num)]
    omega
  · rw [Int.tmod_eq_emod (by positivity) (by norm_num), Int.fdiv_eq_ediv _ (by norm_num)]
    omega

/-- C3 witness: 1 day, 1 hour, 2 minutes, 3 seconds and a 456 ms remainder. -/
theorem c3_breakdown_witness :
    calculateDiff ⟨((1 * 86400000 + 1 * 3600000 + 2 * 60000 + 3 * 1000 + 456 : Nat) : Int)⟩
      = ⟨(1 : Int), (1 : Int), (2 : Int), (3 : Int)⟩ :=
  (c3_breakdown 1 1 2 3 456 (by decide) (by decide) (by decide) (by decide)).2

/-- C9 as amended: construction from two instants or from an ISO string always
yields a non-negative magnitude, `subtract` always does, `add` preserves
non-negativity, but the single-integer form stores the given integer verbatim
(so its result is non-negative only when the argument is). -/
theorem c9_nonneg_amended :
    (∀ t1 t2 v, construct (JSVal.date t1) (some (JSVal.date t2)) = Except.ok v → 0 ≤ valueOf v)
    ∧ (∀ s arg2 v, construct (JSVal.str s) arg2 = Except.ok v → 0 ≤ valueOf v)
    ∧ (∀ n arg2 v, construct (JSVal.num n) arg2 = Except.ok v → valueOf v = n)
    ∧ (∀ a b, 0 ≤ valueOf a → 0 ≤ valueOf b → 0 ≤ valueOf (add a b))
    ∧ (∀ a b, 0 ≤ valueOf (subtract a b)) := by
  refine ⟨?_, ?_, ?_, ?_, ?_⟩
  · intro t1 t2 v hv
    simp only [construct, Except.ok.injEq] at hv
    subst hv
    exact abs_nonneg _
  · intro s arg2 v hv
    simp only [construct, fromISO] at hv
    rcases hsm : searchMatch s.data with _ | x <;> rw [hsm] at hv
    · cases hv
    · simp only [Except.ok.injEq] at hv
      subst hv
      exact Int.natCast_nonneg _
  · intro n arg2 v hv
    cases arg2 <;> simp only [construct, Except.ok.injEq] at hv
    · subst hv
      rfl
    · cases hv
  · intro a b ha hb
    exact add_nonneg ha hb
  · intro a b
    exact abs_nonneg _

/-- C9 witness: two instants and a subtraction, both non-negative. -/
theorem c9_nonneg_witness :
    (0 : Int) ≤ valueOf ⟨(90123000 : Int)⟩ ∧ (0 : Int) ≤ valueOf (subtract ⟨3000⟩ ⟨10000⟩) :=
  ⟨c9_nonneg_amended.1 0 90123000 ⟨(90123000 : Int)⟩ (by simp [construct]),
   c9_nonneg_amended.2.2.2.2 ⟨3000⟩ ⟨10000⟩⟩

/-- C9 counterexample: the integer-milliseconds constructor accepts a negative
integer unchecked, producing a successfully constructed value with negative
magnitude — refuting "every successful construction has valueOf() ≥ 0". -/
theorem c9_negative_counterexample :
    construct (JSVal.num (-5)) none = Except.ok ⟨(-5 : Int)⟩ ∧ valueOf ⟨(-5 : Int)⟩ < 0 :=
  ⟨rfl, by decide⟩

/-- C8 counterexample: a string first argument with a second argument present
matches none of the three recognized shapes, yet construction succeeds (the
string branch of the constructor never inspects the second argument) — so
"fails with InvalidConstructorArguments exactly when … the combination
matches none of the three shapes" is false as stated. -/
theorem c8_shape_counterexample :
    construct (JSVal.str "PT") (some (JSVal.num 456)) = Except.ok ⟨(0 : Int)⟩
    ∧ ¬ MatchesRecognizedShape (JSVal.str "PT") (some (JSVal.num 456)) := by
  refine ⟨rfl, ?_⟩
  rintro (⟨t1, t2, h, -⟩ | ⟨n, h, -⟩ | ⟨s, -, h2⟩)
  · cases h
  · cases h
  · cases h2

/-- C8 as amended: `InvalidConstructorArguments` is raised exactly when a
number first argument comes with a second argument, or when the first argument
is neither a string nor a number nor a `Date` paired with a second `Date` —
a string first argument never raises it, whatever the second argument. -/
theorem c8_invalid_arguments_amended (arg1 : JSVal) (arg2 : Option JSVal) :
    construct arg1 arg2 = Except.error TDError.invalidConstructorArguments ↔
      ((∃ n, arg1 = JSVal.num n) ∧ arg2 ≠ none) ∨
        ((∀ n, arg1 ≠ JSVal.num n) ∧ (∀ s, arg1 ≠ JSVal.str s) ∧
          ¬∃ t1 t2, arg1 = JSVal.date t1 ∧ arg2 = some (JSVal.date t2)) := by
  cases arg1 with
  | date t1 =>
    cases arg2 with
    | none => simp [construct]
    | some v2 => cases v2 <;> simp [construct]
  | num n =>
    cases arg2 with
    | none => simp [construct]
    | some v2 => simp [construct]
  | str s =>
    have hok : construct (JSVal.str s) arg2 = fromISO s := rfl
    rw [hok]
    unfold fromISO
    rcases hsm : searchMatch s.data with _ | x <;> simp
  | other =>
    constructor
    · intro _
      right
      refine ⟨?_, ?_, ?_⟩
      · intro n h
        cases h
      · intro s h
        cases h
      · rintro ⟨t1, t2, h, -⟩
        cases h
    · intro _
      rfl

/-- C10: whenever the `locale` argument is not the exact string `"ru"` —
including the empty string (which falls back to detection) and regional tags
such as `"ru-RU"` — `humanize` renders with the English two-way rule and the
English unit letters, while templates still come from the effective language's
table; and that effective table IS the Russian one for `"ru-RU"` and for an
empty locale with a Russian-tagged runtime language. -/
theorem c10_english_rule_unless_exact_ru :
    (∀ (navLang : String) (a : TimeDiff) (locale : String) (format : HFormat)
        (baseUnit : BaseUnit), locale ≠ "ru" →
        humanize navLang a locale format baseUnit =
          humanizeEnglishRule navLang a locale format baseUnit)
    ∧ (∀ navLang, effectiveLang navLang "ru-RU" = Lang.ru)
    ∧ (∀ navLang, startsWithRu navLang = true → effectiveLang navLang "" = Lang.ru) := by
  refine ⟨?_, ?_, ?_⟩
  · intro navLang a locale format baseUnit hl
    cases format <;> cases baseUnit <;>
      simp [humanize, humanizeEnglishRule, formatUnit, hl]
  · intro navLang
    rfl
  · intro navLang h
    simp [effectiveLang, detectLanguage, resolveLang, h]
    decide
/-- C10 witness: with locale `"ru-RU"` and a five-day magnitude the rendering
agrees with the English-rule renderer (concretely both give the Russian
template for the two-way plural key), and the effective table is Russian. -/
theorem c10_english_rule_witness :
    humanize "en" ⟨(432000000 : Int)⟩ "ru-RU" HFormat.long BaseUnit.seconds =
      humanizeEnglishRule "en" ⟨(432000000 : Int)⟩ "ru-RU" HFormat.long BaseUnit.seconds
    ∧ effectiveLang "en" "ru-RU" = Lang.ru :=
  ⟨c10_english_rule_unless_exact_ru.1 "en" ⟨(432000000 : Int)⟩ "ru-RU" HFormat.long
      BaseUnit.seconds (by decide),
   c10_english_rule_unless_exact_ru.2.1 "en"⟩

/-- Digit characters emitted by `Nat.digitChar` for values below ten are
decimal digits. -/
theorem digitChar_isDigit (k : Nat) (hk : k < 10) : isDigitChar (Nat.digitChar k) = true := by
  interval_cases k <;> decide

/-- Numeric value of a digit character emitted by `Nat.digitChar`. -/
theorem digitChar_toNat (k : Nat) (hk : k < 10) : (Nat.digitChar k).toNat - 48 = k := by
  interval_cases k <;> decide

/-- `digitsToNat` over an appended final digit. -/
theorem digitsToNat_append (ds : List Char) (c : Char) :
    digitsToNat (ds ++ [c]) = digitsToNat ds * 10 + (c.toNat - 48) := by
  simp [digitsToNat, List.foldl_append]

/-- With enough fuel, the decimal rendering is non-empty, consists of digit
characters, and parses back to the rendered number. -/
theorem natToDigitsAux_spec (fuel : Nat) :
    ∀ n : Nat, n < fuel →
      natToDigitsAux fuel n ≠ [] ∧ (∀ c ∈ natToDigitsAux fuel n, isDigitChar c = true) ∧
        digitsToNat (natToDigitsAux fuel n) = n := by
  induction fuel with
  | zero =>
    intro n h
    omega
  | succ fuel ih =>
    intro n _
    by_cases h10 : n < 10
    · refine ⟨by simp [natToDigitsAux, h10], ?_, ?_⟩
      · intro c hc
        simp only [natToDigitsAux, if_pos h10, List.mem_singleton] at hc
        subst hc
        exact digitChar_isDigit n h10
      · simp only [natToDigitsAux, if_pos h10, digitsToNat, List.foldl_cons, List.foldl_nil]
        have := digitChar_toNat n h10
        omega
    · have hdiv : n / 10 < fuel := by omega
      obtain ⟨h1, h2, h3⟩ := ih (n / 10) hdiv
      refine ⟨by simp [natToDigitsAux, h10], ?_, ?_⟩
      · intro c hc
        simp only [natToDigitsAux, if_neg h10, List.mem_append, List.mem_singleton] at hc
        rcases hc with hc | hc
        · exact h2 c hc
        · subst hc
          exact digitChar_isDigit _ (Nat.mod_lt _ (by norm_num))
      · simp only [natToDigitsAux, if_neg h10]
        rw [digitsToNat_append, h3, digitChar_toNat _ (Nat.mod_lt _ (by norm_num))]
        omega

/-- The decimal rendering of a natural number is never empty. -/
theorem natToDigits_ne_nil (n : Nat) : natToDigits n ≠ [] :=
  (natToDigitsAux_spec (n + 1) n (Nat.lt_succ_self n)).1

/-- The decimal rendering of a natural number consists of digit characters. -/
theorem natToDigits_isDigit (n : Nat) : ∀ c ∈ natToDigits n, isDigitChar c = true :=
  (natToDigitsAux_spec (n + 1) n (Nat.lt_succ_self n)).2.1

/-- Printing then parsing a natural number is the identity. -/
theorem digitsToNat_natToDigits (n : Nat) : digitsToNat (natToDigits n) = n :=
  (natToDigitsAux_spec (n + 1) n (Nat.lt_succ_self n)).2.2

/-- `takeDigits` splits off exactly a given digit prefix when the remainder
does not begin with a digit. -/
theorem takeDigits_append (ds r : List Char) (hds : ∀ c ∈ ds, isDigitChar c = true)
    (hr : ∀ c, r.head? = some c → isDigitChar c = false) :
    takeDigits (ds ++ r) = (ds, r) := by
  induction ds with
  | nil =>
    cases r with
    | nil => rfl
    | cons c cs =>
      have hc := hr c rfl
      simp [takeDigits, hc]
  | cons c cs ih =>
    have hc : isDigitChar c = true := hds c (by simp)
    have hcs : ∀ x ∈ cs, isDigitChar x = true := fun x hx => hds x (by simp [hx])
    simp [takeDigits, hc, ih hcs]

/-- Every list is its `takeDigits` decomposition: a digit prefix followed by a
remainder that does not begin with a digit. -/
theorem takeDigits_eq (l : List Char) :
    (takeDigits l).1 ++ (takeDigits l).2 = l
    ∧ (∀ c ∈ (takeDigits l).1, isDigitChar c = true)
    ∧ (∀ c, (takeDigits l).2.head? = some c → isDigitChar c = false) := by
  induction l with
  | nil => exact ⟨rfl, by simp [takeDigits], by simp [takeDigits]⟩
  | cons c cs ih =>
    by_cases hc : isDigitChar c = true
    · obtain ⟨e1, e2, e3⟩ := ih
      refine ⟨by simp [takeDigits, hc, e1], ?_, ?_⟩
      · intro x hx
        simp only [takeDigits, if_pos hc, List.mem_cons] at hx
        rcases hx with hx | hx
        · subst hx
          exact hc
        · exact e2 x hx
      · intro x hx
        simp only [takeDigits, if_pos hc] at hx
        exact e3 x hx
    · have hcf : isDigitChar c = false := by simpa using hc
      refine ⟨by simp [takeDigits, hcf], by simp [takeDigits, hcf], ?_⟩
      intro x hx
      simp only [takeDigits, if_neg (by simp [hcf] : ¬isDigitChar c = true), List.head?_cons,
        Option.some.injEq] at hx
      subst hx
      exact hcf

/-- `jsIntToString` agrees with the plain decimal rendering on casts of
natural numbers. -/
theorem jsIntToString_natCast (k : Nat) : jsIntToString (k : Int) = natToString k := by
  unfold jsIntToString
  rw [if_neg (Int.not_lt.2 (Int.natCast_nonneg k))]
  rfl

/-- `takeDigits` on a printed number followed by a non-digit remainder. -/
theorem takeDigits_natToDigits (k : Nat) (r : List Char)
    (hr : ∀ c, r.head? = some c → isDigitChar c = false) :
    takeDigits (natToDigits k ++ r) = (natToDigits k, r) :=
  takeDigits_append _ _ (natToDigits_isDigit k) hr

/-- The seconds group of the regex recovers a printed seconds value. -/
theorem parseS_print (s : Nat) : parseS (natToDigits s ++ ['S']) = s := by
  unfold parseS
  rw [takeDigits_natToDigits s ['S'] (by intro c hc; simp at hc; subst hc; decide)]
  simp [natToDigits_ne_nil s, expectChar, digitsToNat_natToDigits]

/-- The minutes and seconds groups of the regex recover printed values. -/
theorem parseMS_print (m s : Nat) :
    parseMS (natToDigits m ++ 'M' :: (natToDigits s ++ ['S'])) = (m, s) := by
  unfold parseMS
  rw [takeDigits_natToDigits m _ (by intro c hc; simp at hc; subst hc; decide)]
  simp [natToDigits_ne_nil m, expectChar, digitsToNat_natToDigits, parseS_print]

/-- The hours, minutes and seconds groups of the regex recover printed
values. -/
theorem parseHMS_print (h m s : Nat) :
    parseHMS (natToDigits h ++ 'H' :: (natToDigits m ++ 'M' :: (natToDigits s ++ ['S'])))
      = (h, m, s) := by
  unfold parseHMS
  rw [takeDigits_natToDigits h _ (by intro c hc; simp at hc; subst hc; decide)]
  simp [natToDigits_ne_nil h, expectChar, digitsToNat_natToDigits, parseMS_print]

/-- A full regex attempt at the head of a printed ISO duration string
recovers all four components. -/
theorem matchFrom_print (d h m s : Nat) :
    matchFrom ('P' :: (natToDigits d ++ 'D' :: 'T' ::
        (natToDigits h ++ 'H' :: (natToDigits m ++ 'M' :: (natToDigits s ++ ['S'])))))
      = some (d, h, m, s) := by
  have htd := takeDigits_natToDigits d ('D' :: 'T' ::
      (natToDigits h ++ 'H' :: (natToDigits m ++ 'M' :: (natToDigits s ++ ['S']))))
      (by intro c hc; simp at hc; subst hc; decide)
  simp [matchFrom, expectChar, htd, natToDigits_ne_nil d, digitsToNat_natToDigits,
    parseHMS_print]

/-- The breakdown of a cast natural number, in terms of `Nat` division and
modulo. -/
theorem calculateDiff_natCast (n : Nat) :
    calculateDiff ⟨(n : Int)⟩ =
      ⟨((n / 86400000 : Nat) : Int), ((n % 86400000 / 3600000 : Nat) : Int),
       ((n % 3600000 / 60000 : Nat) : Int), ((n % 60000 / 1000 : Nat) : Int)⟩ := by
  simp only [calculateDiff]
  rw [show ((86400000 : Int)) = ((86400000 : Nat) : Int) from rfl,
      show ((3600000 : Int)) = ((3600000 : Nat) : Int) from rfl,
      show ((60000 : Int)) = ((60000 : Nat) : Int) from rfl,
      show ((1000 : Int)) = ((1000 : Nat) : Int) from rfl]
  simp only [← Int.ofNat_tmod, ← Int.ofNat_fdiv]

/-- The character data of a printed ISO duration string of a cast natural
number. -/
theorem toISO_natCast_data (n : Nat) :
    (toISO ⟨(n : Int)⟩).data =
      'P' :: (natToDigits (n / 86400000) ++ 'D' :: 'T' ::
        (natToDigits (n % 86400000 / 3600000) ++ 'H' ::
          (natToDigits (n % 3600000 / 60000) ++ 'M' ::
            (natToDigits (n % 60000 / 1000) ++ ['S'])))) := by
  unfold toISO
  rw [calculateDiff_natCast n]
  simp only [jsIntToString_natCast]
  have hmk : ∀ k : Nat, (natToString k).data = natToDigits k := fun _ => rfl
  simp [String.data_append, hmk, natToString]

/-- C1: for every magnitude that is a non-negative whole number of seconds,
parsing the `toISO` rendering gives back a value of equal magnitude. -/
theorem c1_iso_roundtrip (x : Int) (hx : 0 ≤ x) (hdvd : (1000 : Int) ∣ x) :
    fromISO (toISO ⟨x⟩) = Except.ok ⟨x⟩ := by
  lift x to Nat using hx with n
  have hsm : searchMatch (toISO ⟨(n : Int)⟩).data =
      some (n / 86400000, n % 86400000 / 3600000, n % 3600000 / 60000, n % 60000 / 1000) := by
    rw [toISO_natCast_data n]
    simp [searchMatch, matchFrom_print]
  have hval : ((n / 86400000 * 86400000 + n % 86400000 / 3600000 * 3600000 +
      n % 3600000 / 60000 * 60000 + n % 60000 / 1000 * 1000 : Nat) : Int) = (n : Int) := by
    omega
  simp [fromISO, hsm, hval]

/-- C1 witness: one day, two hours, three minutes, four seconds. -/
theorem c1_iso_roundtrip_witness :
    fromISO (toISO ⟨(93784000 : Int)⟩) = Except.ok ⟨(93784000 : Int)⟩ :=
  c1_iso_roundtrip 93784000 (by decide) ⟨93784, by norm_num⟩

/-- Unfolding of a regex attempt at a leading `P`, phrased through a known
`takeDigits` decomposition of the tail. -/
theorem matchFrom_cons_P (rest ds r : List Char) (htd : takeDigits rest = (ds, r)) :
    matchFrom ('P' :: rest) =
      if ds = [] then
        match expectChar 'T' rest with
        | some r2 => some (0, (parseHMS r2).1, (parseHMS r2).2.1, (parseHMS r2).2.2)
        | none => none
      else
        match expectChar 'D' r with
        | some r1 =>
          match expectChar 'T' r1 with
          | some r2 =>
            some (digitsToNat ds, (parseHMS r2).1, (parseHMS r2).2.1, (parseHMS r2).2.2)
          | none => none
        | none => none := by
  simp [matchFrom, expectChar, htd]

/-- The `takeDigits` decomposition, phrased through its two components. -/
theorem takeDigits_eq_parts (l ds r : List Char) (htd : takeDigits l = (ds, r)) :
    ds ++ r = l ∧ (∀ c ∈ ds, isDigitChar c = true) ∧
      (∀ c, r.head? = some c → isDigitChar c = false) := by
  have h := takeDigits_eq l
  rw [htd] at h
  exact h

/-- A regex attempt at the head of a list succeeds exactly when the list
starts with `P` followed either immediately by `T` or by a non-empty digit
run, `D`, then `T`. -/
theorem matchFrom_isSome_iff (l : List Char) :
    (matchFrom l).isSome = true ↔
      ((∃ r, l = 'P' :: 'T' :: r) ∨
        ∃ ds r, l = 'P' :: (ds ++ 'D' :: 'T' :: r) ∧ ds ≠ [] ∧ ∀ c ∈ ds, isDigitChar c = true) := by
  constructor
  · intro hsome
    cases l with
    | nil => simp [matchFrom, expectChar] at hsome
    | cons c rest =>
      by_cases hc : c = 'P'
      · subst hc
        rcases htd : takeDigits rest with ⟨ds, r⟩
        obtain ⟨e1, e2, e3⟩ := takeDigits_eq_parts rest ds r htd
        rw [matchFrom_cons_P rest ds r htd] at hsome
        by_cases hds : ds = []
        · subst hds
          rw [if_pos rfl] at hsome
          cases rest with
          | nil => simp [expectChar] at hsome
          | cons c2 r2 =>
            by_cases hc2 : c2 = 'T'
            · subst hc2
              exact Or.inl ⟨r2, rfl⟩
            · simp [expectChar, hc2] at hsome
        · rw [if_neg hds] at hsome
          cases r with
          | nil => simp [expectChar] at hsome
          | cons cD rD =>
            by_cases hcD : cD = 'D'
            · subst hcD
              cases rD with
              | nil => simp [expectChar] at hsome
              | cons cT rT =>
                by_cases hcT : cT = 'T'
                · subst hcT
                  refine Or.inr ⟨ds, rT, ?_, hds, e2⟩
                  rw [← e1]
                · simp [expectChar, hcT] at hsome
            · simp [expectChar, hcD] at hsome
      · simp [matchFrom, expectChar, hc] at hsome
  · rintro (⟨r, rfl⟩ | ⟨ds, r, rfl, hds, hdig⟩)
    · have hT : isDigitChar 'T' = false := by decide
      have htd : takeDigits ('T' :: r) = ([], 'T' :: r) := by
        simp [takeDigits, hT]
      simp [matchFrom, expectChar, htd]
    · have htd : takeDigits (ds ++ 'D' :: 'T' :: r) = (ds, 'D' :: 'T' :: r) :=
        takeDigits_append ds _ hdig (by intro c hc; simp at hc; subst hc; decide)
      simp [matchFrom, expectChar, htd, hds]

/-- The unanchored search fails exactly when the regex attempt fails at every
position. -/
theorem searchMatch_eq_none_iff (cs : List Char) :
    searchMatch cs = none ↔ ∀ pre suf, cs = pre ++ suf → matchFrom suf = none := by
  induction cs with
  | nil =>
    constructor
    · intro _ pre suf h
      have hsuf : suf = [] := (List.append_eq_nil.mp h.symm).2
      subst hsuf
      rfl
    · intro _
      rfl
  | cons c cs ih =>
    constructor
    · intro hnone pre suf h
      have h1 : matchFrom (c :: cs) = none := by
        rcases hm : matchFrom (c :: cs) with _ | v
        · rfl
        · simp [searchMatch, hm] at hnone
      have h2 : searchMatch cs = none := by
        simpa [searchMatch, h1] using hnone
      cases pre with
      | nil =>
        simp only [List.nil_append] at h
        subst h
        exact h1
      | cons p ps =>
        simp only [List.cons_append, List.cons.injEq] at h
        exact (ih.mp h2) ps suf h.2
    · intro hall
      have h1 : matchFrom (c :: cs) = none := hall [] (c :: cs) rfl
      have h2 : searchMatch cs = none :=
        ih.mpr fun pre suf h => hall (c :: pre) suf (by simp [h])
      simp [searchMatch, h1, h2]

/-- The declarative containment predicate, re-expressed as a successful regex
attempt at some split of the list. -/
theorem containsISOMatch_iff (cs : List Char) :
    ContainsISOMatch cs ↔ ∃ pre suf, cs = pre ++ suf ∧
      ((∃ r, suf = 'P' :: 'T' :: r) ∨
        ∃ ds r, suf = 'P' :: (ds ++ 'D' :: 'T' :: r) ∧ ds ≠ [] ∧ ∀ c ∈ ds, isDigitChar c = true) := by
  constructor
  · rintro ⟨pre, ds, suf, rfl, hcond⟩
    rcases hcond with rfl | ⟨ds1, rfl, hne, hdig⟩
    · exact ⟨pre, 'P' :: 'T' :: suf, by simp, Or.inl ⟨suf, rfl⟩⟩
    · exact ⟨pre, 'P' :: (ds1 ++ 'D' :: 'T' :: suf), by simp,
        Or.inr ⟨ds1, suf, by simp, hne, hdig⟩⟩
  · rintro ⟨pre, suf, rfl, hcond⟩
    rcases hcond with ⟨r, rfl⟩ | ⟨ds, r, rfl, hne, hdig⟩
    · exact ⟨pre, [], r, by simp, Or.inl rfl⟩
    · exact ⟨pre, ds ++ ['D'], r, by simp, Or.inr ⟨ds, by simp, hne, hdig⟩⟩

/-- C2 as amended: parsing (and the string constructor form) fails with
`InvalidDurationFormat` exactly when NO SUBSTRING of the input matches the
pattern `P(\d+D)?T(\d+H)?(\d+M)?(\d+S)?` — the regex is applied unanchored, so
surrounding non-matching text is accepted; `"PT"` still parses to zero and the
empty string still fails. -/
theorem c2_unanchored_amended :
    (∀ s : String,
      fromISO s = Except.error TDError.invalidDurationFormat ↔ ¬ ContainsISOMatch s.data)
    ∧ (∀ (s : String) (arg2 : Option JSVal),
        construct (JSVal.str s) arg2 = Except.error TDError.invalidDurationFormat ↔
          ¬ ContainsISOMatch s.data)
    ∧ fromISO "PT" = Except.ok ⟨(0 : Int)⟩
    ∧ fromISO "" = Except.error TDError.invalidDurationFormat := by
  have key : ∀ s : String,
      fromISO s = Except.error TDError.invalidDurationFormat ↔ ¬ ContainsISOMatch s.data := by
    intro s
    have h1 : fromISO s = Except.error TDError.invalidDurationFormat ↔
        searchMatch s.data = none := by
      unfold fromISO
      rcases hsm : searchMatch s.data with _ | x <;> simp
    rw [h1, searchMatch_eq_none_iff, containsISOMatch_iff]
    constructor
    · rintro hall ⟨pre, suf, heq, hdisj⟩
      have hnone := hall pre suf heq
      have hs : (matchFrom suf).isSome = true := (matchFrom_isSome_iff suf).mpr hdisj
      rw [hnone] at hs
      cases hs
    · intro hnex pre suf heq
      rcases hm : matchFrom suf with _ | v
      · rfl
      · exact absurd ⟨pre, suf, heq, (matchFrom_isSome_iff suf).mp (by rw [hm]; rfl)⟩ hnex
  exact ⟨key, fun s arg2 => key s, rfl, rfl⟩

/-- C2 counterexample: `"PTx"` does not match the claimed pattern as a whole,
yet `fromISO` accepts it (parsing it as a zero duration), because the source's
regex is applied unanchored. -/
theorem c2_full_match_counterexample :
    fromISO "PTx" = Except.ok ⟨(0 : Int)⟩ ∧ isoFullMatch "PTx" = false :=
  ⟨rfl, rfl⟩
